import Mathlib

/-!
Verification of the emoji-label segmentation and layout core
(`src/lib.rs`, `src/exposed.rs`).

The shallow embedding mirrors the Rust source:

* `ExposedRichText` mirrors the field-exposed styled-run type of
  `src/exposed.rs` (the crate's `RichText` is transmute-identical to it, so we
  use one Lean structure for both).  `f32` style payloads are only stored and
  copied by the code under verification, never computed with, so they are
  modelled by their raw bit pattern (`F32`).
* `segment_go` / `segment_text` mirror `segment_text` of `src/lib.rs`.  The
  grapheme-cluster iterator of the `unicode-segmentation` crate and the
  twemoji asset table behind `is_emoji` are external collaborators; they enter
  as parameters (`graphemes`, `is_emoji`), with the facts the code relies on
  (graphemes are non-empty and concatenate back to the input) as hypotheses.
* `LabelState.load` / `show_cache_step` mirror `LabelState::load` and the
  read-then-save protocol of `EmojiLabel::show`; the egui temp-data store is
  modelled as a key-indexed partial map.
* `show_items` mirrors the per-segment widget emission loop of
  `EmojiLabel::show`; `build_layout_job` and `configure_wrap` mirror the
  shaping-job construction of `EmojiLabel::layout_in_ui`; the egui shaping
  engine itself is an external collaborator, modelled by `ShapingService`.
-/

/-- An `f32` style payload, identified with its raw bit pattern: the code under
verification only stores, copies and compares these values. -/
structure F32 where
  bits : Nat
deriving DecidableEq, Repr

/-- The IEEE-754 bit pattern of `f32::INFINITY`, used by the no-wrap branch of
`layout_in_ui`. -/
def f32_infinity : F32 := ⟨0x7f800000⟩

/-- The bit pattern of `0.0f32`. -/
def f32_zero : F32 := ⟨0⟩

/-- egui `Color32`, modelled as its four RGBA bytes. -/
structure Color32 where
  r : Nat
  g : Nat
  b : Nat
  a : Nat
deriving DecidableEq, Repr

/-- `Color32::TRANSPARENT`. -/
def Color32.transparent : Color32 := ⟨0, 0, 0, 0⟩

/-- egui `FontFamily`. -/
inductive FontFamily where
  | proportional
  | monospace
  | named (s : String)
deriving DecidableEq, Repr

/-- egui `TextStyle`. -/
inductive TextStyle where
  | small
  | body
  | monospace
  | button
  | heading
  | named (s : String)
deriving DecidableEq, Repr

/-- Mirror of `ExposedRichText` in `src/exposed.rs`, field for field.  The
crate's `egui::RichText` is declared transmute-identical to it, so this one
structure stands for both. -/
structure ExposedRichText where
  text : String
  size : Option F32
  extra_letter_spacing : F32
  line_height : Option F32
  family : Option FontFamily
  text_style : Option TextStyle
  background_color : Color32
  expand_bg : F32
  text_color : Option Color32
  code : Bool
  strong : Bool
  weak : Bool
  strikethrough : Bool
  underline : Bool
  italics : Bool
  raised : Bool
deriving DecidableEq, Repr

/-- The crate treats `RichText` and `ExposedRichText` as the same value
(transmute in both directions), so we identify the types. -/
abbrev RichText := ExposedRichText

/-- `RichText::new(text)` / `impl Default`: all style attributes at their
default values. -/
def RichText.new (s : String) : RichText where
  text := s
  size := none
  extra_letter_spacing := f32_zero
  line_height := none
  family := none
  text_style := none
  background_color := Color32.transparent
  expand_bg := f32_zero
  text_color := none
  code := false
  strong := false
  weak := false
  strikethrough := false
  underline := false
  italics := false
  raised := false

/-- `ExposedRichText::new_keep_properties` of `src/exposed.rs`: copy every
style attribute of `old`, replace the text content. -/
def ExposedRichText.new_keep_properties (text : String) (old : RichText) :
    ExposedRichText :=
  { old with text := text }

/-- The `TextSegment` enum of `src/lib.rs`. -/
inductive TextSegment where
  | Text (t : RichText)
  | Emoji (s : String)
deriving DecidableEq, Repr

/-- Is this segment a `Text` segment? -/
def TextSegment.isText : TextSegment → Bool
  | .Text _ => true
  | .Emoji _ => false

/-- The underlying text of a segment: a `Text` segment's content, or a
pictogram's codepoint sequence. -/
def TextSegment.content : TextSegment → String
  | .Text t => t.text
  | .Emoji s => s

/-- Concatenation of a list of strings, in order. -/
def joinAll : List String → String
  | [] => ""
  | s :: ss => s ++ joinAll ss

/-- Reconstruction of the input: the concatenation of all segments' underlying
text, in segment order. -/
def reconstruct (segs : List TextSegment) : String :=
  joinAll (segs.map TextSegment.content)

/-- The loop body of `segment_text` (`src/lib.rs` lines 28-46), as a recursion
over the remaining grapheme clusters.  `acc` is the `text` accumulator string:
a pictogram grapheme first flushes a non-empty accumulator as a re-skinned
`Text` segment and then emits an `Emoji` segment; any other grapheme is
appended to the accumulator; after the loop a non-empty accumulator is flushed.
`is_emoji` stands for the twemoji asset-table membership test of
`src/lib.rs` lines 15-22. -/
def segment_go (is_emoji : String → Bool) (input : RichText) :
    List String → String → List TextSegment
  | [], acc =>
      if acc = "" then []
      else [.Text (ExposedRichText.new_keep_properties acc input)]
  | g :: gs, acc =>
      if is_emoji g then
        (if acc = "" then []
         else [.Text (ExposedRichText.new_keep_properties acc input)]) ++
          .Emoji g :: segment_go is_emoji input gs ""
      else
        segment_go is_emoji input gs (acc ++ g)

/-- `segment_text` of `src/lib.rs`: walk the grapheme clusters of the input's
text.  `graphemes` stands for the `unicode-segmentation` grapheme-cluster
iterator (extended grapheme clusters), an external collaborator. -/
def segment_text (is_emoji : String → Bool) (graphemes : String → List String)
    (input : RichText) : List TextSegment :=
  segment_go is_emoji input (graphemes input.text) ""

/-- No two consecutive segments of the list are both `Text`. -/
def noTwoAdjacentText : List TextSegment → Bool
  | a :: b :: rest => (!(a.isText && b.isText)) && noTwoAdjacentText (b :: rest)
  | _ => true

/- ### Basic string and segmenter lemmas -/

theorem joinAll_append (l₁ l₂ : List String) :
    joinAll (l₁ ++ l₂) = joinAll l₁ ++ joinAll l₂ := by
  induction l₁ with
  | nil => simp [joinAll, String.empty_append]
  | cons s ss ih => simp [joinAll, ih, String.append_assoc]

theorem reconstruct_segment_go (is_emoji : String → Bool) (input : RichText)
    (gs : List String) :
    ∀ acc, reconstruct (segment_go is_emoji input gs acc) = acc ++ joinAll gs := by
  induction gs with
  | nil =>
    intro acc
    by_cases h : acc = "" <;>
      simp [segment_go, h, reconstruct, joinAll, TextSegment.content,
        ExposedRichText.new_keep_properties, String.append_empty]
  | cons g gs ih =>
    intro acc
    by_cases he : is_emoji g
    · have h0 := ih ""
      simp only [reconstruct, String.empty_append] at h0
      by_cases h : acc = "" <;>
        simp [segment_go, he, h, reconstruct, joinAll, TextSegment.content,
          ExposedRichText.new_keep_properties, h0, String.empty_append,
          String.append_assoc]
    · simp [segment_go, he, ih, joinAll, String.append_assoc]

theorem reconstruct_segment_text (is_emoji : String → Bool)
    (graphemes : String → List String) (input : RichText) :
    reconstruct (segment_text is_emoji graphemes input) =
      joinAll (graphemes input.text) := by
  simpa [String.empty_append] using
    reconstruct_segment_go is_emoji input (graphemes input.text) ""

/- ### Claim theorems -/

/-- C1: for every input (with any style attributes), concatenating, in
segment order, the text content of each `Text` segment and the codepoint
sequence of each `Emoji` segment produced by `segment_text` reconstructs the
input text exactly, given that the grapheme-cluster decomposition of the input
concatenates back to it (the defining property of grapheme segmentation). -/
theorem segment_text_round_trip (is_emoji : String → Bool)
    (graphemes : String → List String) (input : RichText)
    (hjoin : joinAll (graphemes input.text) = input.text) :
    reconstruct (segment_text is_emoji graphemes input) = input.text := by
  rw [reconstruct_segment_text, hjoin]

/-- Witness for C1 at a concrete input. -/
theorem segment_text_round_trip_witness :
    reconstruct
      (segment_text (fun s => s = "😀") (fun _ => ["a", "😀", "b"])
        (RichText.new "a😀b")) = "a😀b" :=
  segment_text_round_trip (fun s => s = "😀") (fun _ => ["a", "😀", "b"])
    (RichText.new "a😀b") (by decide)

/-- C8: the re-skin operation `new_keep_properties` produces a styled run whose
text content equals the supplied replacement text and whose every other style
attribute equals the corresponding attribute of the source run. -/
theorem new_keep_properties_spec (t : String) (old : RichText) :
    (ExposedRichText.new_keep_properties t old).text = t ∧
    (ExposedRichText.new_keep_properties t old).size = old.size ∧
    (ExposedRichText.new_keep_properties t old).extra_letter_spacing =
      old.extra_letter_spacing ∧
    (ExposedRichText.new_keep_properties t old).line_height = old.line_height ∧
    (ExposedRichText.new_keep_properties t old).family = old.family ∧
    (ExposedRichText.new_keep_properties t old).text_style = old.text_style ∧
    (ExposedRichText.new_keep_properties t old).background_color =
      old.background_color ∧
    (ExposedRichText.new_keep_properties t old).expand_bg = old.expand_bg ∧
    (ExposedRichText.new_keep_properties t old).text_color = old.text_color ∧
    (ExposedRichText.new_keep_properties t old).code = old.code ∧
    (ExposedRichText.new_keep_properties t old).strong = old.strong ∧
    (ExposedRichText.new_keep_properties t old).weak = old.weak ∧
    (ExposedRichText.new_keep_properties t old).strikethrough =
      old.strikethrough ∧
    (ExposedRichText.new_keep_properties t old).underline = old.underline ∧
    (ExposedRichText.new_keep_properties t old).italics = old.italics ∧
    (ExposedRichText.new_keep_properties t old).raised = old.raised := by
  refine ⟨rfl, rfl, rfl, rfl, rfl, rfl, rfl, rfl, rfl, rfl, rfl, rfl, rfl,
    rfl, rfl, rfl⟩

/- ### Lemmas for the adjacency and emptiness invariants -/

theorem append_eq_empty_iff (a b : String) (h : a ++ b = "") :
    a = "" ∧ b = "" := by
  have hd := congrArg String.data h
  simp at hd
  exact ⟨String.ext hd.1, String.ext hd.2⟩

theorem noTwoAdjacentText_emoji_cons (s : String) (l : List TextSegment) :
    noTwoAdjacentText (.Emoji s :: l) = noTwoAdjacentText l := by
  cases l with
  | nil => simp [noTwoAdjacentText]
  | cons b r => simp [noTwoAdjacentText, TextSegment.isText]

theorem noTwoAdjacentText_text_emoji (t : RichText) (s : String)
    (l : List TextSegment) :
    noTwoAdjacentText (.Text t :: .Emoji s :: l) =
      noTwoAdjacentText (.Emoji s :: l) := by
  simp [noTwoAdjacentText, TextSegment.isText]

theorem noTwoAdjacentText_segment_go (is_emoji : String → Bool)
    (input : RichText) (gs : List String) :
    ∀ acc, noTwoAdjacentText (segment_go is_emoji input gs acc) = true := by
  induction gs with
  | nil =>
    intro acc
    by_cases h : acc = "" <;> simp [segment_go, h, noTwoAdjacentText]
  | cons g gs ih =>
    intro acc
    by_cases he : is_emoji g <;> by_cases h : acc = "" <;>
      simp [segment_go, he, h, noTwoAdjacentText_emoji_cons,
        noTwoAdjacentText_text_emoji, ih]

theorem segment_go_text_nonempty (is_emoji : String → Bool) (input : RichText)
    (gs : List String) :
    ∀ acc t, TextSegment.Text t ∈ segment_go is_emoji input gs acc →
      t.text ≠ "" := by
  induction gs with
  | nil =>
    intro acc t ht
    by_cases h : acc = "" <;>
      simp [segment_go, h] at ht
    rw [ht]
    exact h
  | cons g gs ih =>
    intro acc t ht
    by_cases he : is_emoji g
    · by_cases h : acc = "" <;> simp [segment_go, he, h] at ht
      · exact ih "" t ht
      · rcases ht with ht | ht
        · rw [ht]; exact h
        · exact ih "" t ht
    · simp only [segment_go, he, if_neg, Bool.false_eq_true, if_false] at ht
      exact ih (acc ++ g) t ht

/- ### Lemmas for classifier consistency and the edge cases -/

theorem segment_go_classifier (is_emoji : String → Bool) (input : RichText)
    (gs : List String) :
    ∀ acc ts₀, (∀ s ∈ ts₀, is_emoji s = false) → joinAll ts₀ = acc →
      (∀ g, TextSegment.Emoji g ∈ segment_go is_emoji input gs acc →
          is_emoji g = true ∧ g ∈ gs) ∧
      (∀ t, TextSegment.Text t ∈ segment_go is_emoji input gs acc →
          ∃ ts, (∀ s ∈ ts, is_emoji s = false) ∧ joinAll ts = t.text) := by
  induction gs with
  | nil =>
    intro acc ts₀ hts hacc
    constructor
    · intro g hg
      by_cases h : acc = "" <;> simp [segment_go, h] at hg
    · intro t ht
      by_cases h : acc = "" <;> simp [segment_go, h] at ht
      exact ⟨ts₀, hts, by rw [ht]; exact hacc⟩
  | cons g gs ih =>
    intro acc ts₀ hts hacc
    have ihrest := ih "" [] (by simp) rfl
    by_cases he : is_emoji g
    · constructor
      · intro g' hg'
        by_cases h : acc = "" <;> simp [segment_go, he, h] at hg'
        · rcases hg' with hg' | hg'
          · exact ⟨hg' ▸ he, by simp [hg']⟩
          · exact ⟨(ihrest.1 g' hg').1, List.mem_cons_of_mem g (ihrest.1 g' hg').2⟩
        · rcases hg' with hg' | hg'
          · exact ⟨hg' ▸ he, by simp [hg']⟩
          · exact ⟨(ihrest.1 g' hg').1, List.mem_cons_of_mem g (ihrest.1 g' hg').2⟩
      · intro t ht
        by_cases h : acc = "" <;> simp [segment_go, he, h] at ht
        · exact ihrest.2 t ht
        · rcases ht with ht | ht
          · exact ⟨ts₀, hts, by rw [ht]; exact hacc⟩
          · exact ihrest.2 t ht
    · have hstep := ih (acc ++ g) (ts₀ ++ [g])
        (by
          intro s hs
          rcases List.mem_append.mp hs with hs | hs
          · exact hts s hs
          · simp at hs
            rw [hs]
            simpa using he)
        (by rw [joinAll_append, hacc]; simp [joinAll, String.append_empty])
      constructor
      · intro g' hg'
        simp only [segment_go, he, Bool.false_eq_true, if_false] at hg'
        exact ⟨(hstep.1 g' hg').1, List.mem_cons_of_mem g (hstep.1 g' hg').2⟩
      · intro t ht
        simp only [segment_go, he, Bool.false_eq_true, if_false] at ht
        exact hstep.2 t ht

theorem segment_go_ne_nil (is_emoji : String → Bool) (input : RichText)
    (gs : List String) :
    ∀ acc, (∀ g ∈ gs, g ≠ "") → (gs ≠ [] ∨ acc ≠ "") →
      segment_go is_emoji input gs acc ≠ [] := by
  induction gs with
  | nil =>
    intro acc _ hor
    rcases hor with hor | hor
    · exact absurd rfl hor
    · simp [segment_go, hor]
  | cons g gs ih =>
    intro acc hne _
    by_cases he : is_emoji g
    · simp [segment_go, he]
    · simp only [segment_go, he, Bool.false_eq_true, if_false]
      refine ih (acc ++ g) (fun g' hg' => hne g' (List.mem_cons_of_mem g hg')) ?_
      right
      intro hcontra
      exact hne g (by simp) (append_eq_empty_iff acc g hcontra).2

theorem segment_go_all_emoji (is_emoji : String → Bool) (input : RichText)
    (gs : List String) (hall : ∀ g ∈ gs, is_emoji g = true) :
    segment_go is_emoji input gs "" = gs.map TextSegment.Emoji := by
  induction gs with
  | nil => simp [segment_go]
  | cons g gs ih =>
    have he : is_emoji g = true := hall g (by simp)
    simp [segment_go, he, ih fun g' hg' => hall g' (List.mem_cons_of_mem g hg')]

/- ### Claim theorems (continued) -/

/-- C2: for every input, the segment sequence produced by `segment_text` never
contains two consecutive `Text` segments: adjacent plain-text graphemes are
always coalesced into one `Text` segment. -/
theorem segment_text_no_adjacent_text (is_emoji : String → Bool)
    (graphemes : String → List String) (input : RichText) :
    noTwoAdjacentText (segment_text is_emoji graphemes input) = true :=
  noTwoAdjacentText_segment_go is_emoji input (graphemes input.text) ""

/-- C10: for every input, every `Text` segment produced by `segment_text` has
non-empty text content: the accumulator is flushed only when non-empty. -/
theorem segment_text_no_empty_text (is_emoji : String → Bool)
    (graphemes : String → List String) (input : RichText) :
    ∀ t, TextSegment.Text t ∈ segment_text is_emoji graphemes input →
      t.text ≠ "" :=
  fun t ht =>
    segment_go_text_nonempty is_emoji input (graphemes input.text) "" t ht

/-- Witness for C10 at a concrete input: the flushed `Text` segment of
`"a😀"` is non-empty. -/
theorem segment_text_no_empty_text_witness :
    (ExposedRichText.new_keep_properties "a" (RichText.new "a😀")).text ≠ "" :=
  segment_text_no_empty_text (fun s => s == "😀") (fun _ => ["a", "😀"])
    (RichText.new "a😀")
    (ExposedRichText.new_keep_properties "a" (RichText.new "a😀")) (by decide)

/-- C3: for every input whose grapheme clusters are non-empty (as grapheme
clusters are), every `Emoji` segment produced by `segment_text` carries a
non-empty codepoint sequence satisfying `is_emoji`, and every `Text` segment's
content is a concatenation of grapheme clusters each of which fails
`is_emoji`. -/
theorem segment_text_classifier_consistency (is_emoji : String → Bool)
    (graphemes : String → List String) (input : RichText)
    (hne : ∀ g ∈ graphemes input.text, g ≠ "") :
    (∀ g, TextSegment.Emoji g ∈ segment_text is_emoji graphemes input →
        is_emoji g = true ∧ g ≠ "") ∧
    (∀ t, TextSegment.Text t ∈ segment_text is_emoji graphemes input →
        ∃ ts, (∀ s ∈ ts, is_emoji s = false) ∧ joinAll ts = t.text) := by
  have h := segment_go_classifier is_emoji input (graphemes input.text) "" []
    (by simp) rfl
  exact ⟨fun g hg => ⟨(h.1 g hg).1, hne g (h.1 g hg).2⟩, h.2⟩

/-- Witness for C3 at a concrete input. -/
theorem segment_text_classifier_consistency_witness :
    (fun s => s == "😀") "😀" = true ∧ "😀" ≠ "" :=
  (segment_text_classifier_consistency (fun s => s == "😀")
    (fun _ => ["a", "😀"]) (RichText.new "a😀") (by decide)).1 "😀" (by decide)

/-- C4: `segment_text` maps empty input text to an empty segment sequence,
non-empty input text to a non-empty segment sequence, and input consisting
entirely of pictogram graphemes to a sequence of `Emoji` segments only (no
`Text` segments), under the defining properties of grapheme segmentation
(clusters are non-empty and concatenate back to the input). -/
theorem segment_text_edge_cases (is_emoji : String → Bool)
    (graphemes : String → List String) (input : RichText)
    (hjoin : joinAll (graphemes input.text) = input.text)
    (hne : ∀ g ∈ graphemes input.text, g ≠ "") :
    (input.text = "" → segment_text is_emoji graphemes input = []) ∧
    (input.text ≠ "" → segment_text is_emoji graphemes input ≠ []) ∧
    ((∀ g ∈ graphemes input.text, is_emoji g = true) →
      segment_text is_emoji graphemes input =
        (graphemes input.text).map TextSegment.Emoji) := by
  refine ⟨?_, ?_, fun hall => segment_go_all_emoji is_emoji input _ hall⟩
  · intro hempty
    have hnil : graphemes input.text = [] := by
      cases hgs : graphemes input.text with
      | nil => rfl
      | cons g gs =>
        exfalso
        apply hne g (by rw [hgs]; simp)
        rw [hgs] at hjoin
        simp only [joinAll] at hjoin
        exact (append_eq_empty_iff g (joinAll gs) (by rw [hjoin, hempty])).1
    unfold segment_text
    rw [hnil]
    simp [segment_go]
  · intro hnonempty
    have hgs : graphemes input.text ≠ [] := by
      intro hcontra
      rw [hcontra] at hjoin
      exact hnonempty hjoin.symm
    exact segment_go_ne_nil is_emoji input (graphemes input.text) "" hne
      (Or.inl hgs)

/-- Witness for C4 at a concrete all-pictogram input. -/
theorem segment_text_edge_cases_witness :
    segment_text (fun s => s == "😀") (fun _ => ["😀"]) (RichText.new "😀") =
      [TextSegment.Emoji "😀"] :=
  (segment_text_edge_cases (fun s => s == "😀") (fun _ => ["😀"])
    (RichText.new "😀") (by decide) (by decide)).2.2 (by decide)

/-- C5: re-running `segment_text` on the string reconstructed from its output,
with the same style attributes, yields a structurally equal segment sequence:
the reconstruction is the original text, so segmentation is idempotent through
the round trip. -/
theorem segment_text_idempotent (is_emoji : String → Bool)
    (graphemes : String → List String) (input : RichText)
    (hjoin : joinAll (graphemes input.text) = input.text) :
    segment_text is_emoji graphemes
      { input with
        text := reconstruct (segment_text is_emoji graphemes input) } =
      segment_text is_emoji graphemes input := by
  have h : reconstruct (segment_text is_emoji graphemes input) = input.text := by
    rw [reconstruct_segment_text, hjoin]
  rw [h]

/-- Witness for C5 at a concrete input. -/
theorem segment_text_idempotent_witness :
    segment_text (fun s => s == "😀") (fun _ => ["a", "😀", "b"])
      { RichText.new "a😀b" with
        text := reconstruct (segment_text (fun s => s == "😀")
          (fun _ => ["a", "😀", "b"]) (RichText.new "a😀b")) } =
      segment_text (fun s => s == "😀") (fun _ => ["a", "😀", "b"])
        (RichText.new "a😀b") :=
  segment_text_idempotent (fun s => s == "😀") (fun _ => ["a", "😀", "b"])
    (RichText.new "a😀b") (by decide)

/- ### The segment cache (`LabelState`) -/

/-- The `LabelState` of `src/lib.rs`: the cached segment sequence plus the
two-phase save flag. -/
structure LabelState where
  segments : List TextSegment
  is_saved : Bool
deriving DecidableEq, Repr

/-- `LabelState::from_text`: segment the text; the fresh state is not yet
saved. -/
def LabelState.from_text (is_emoji : String → Bool)
    (graphemes : String → List String) (text : RichText) : LabelState where
  segments := segment_text is_emoji graphemes text
  is_saved := false

/-- The egui temp-data store (`ctx.data_mut` / `get_temp` / `insert_temp`),
restricted to `LabelState` entries: a partial map from widget ids to states.
`EmojiLabel` derives the id from the label text (`egui::Id::new(self.text())`),
so ids are modelled by the text strings they are built from. -/
def Store := String → Option LabelState

/-- `LabelState::load` (`src/lib.rs` lines 66-71): return the stored entry for
`id` if present, else compute a fresh state from the text.  The store is not
modified. -/
def LabelState.load (is_emoji : String → Bool)
    (graphemes : String → List String) (store : Store) (id : String)
    (text : RichText) : LabelState :=
  match store id with
  | some s => s
  | none => LabelState.from_text is_emoji graphemes text

/-- `LabelState::save` (`src/lib.rs` lines 73-75): insert the state at `id`. -/
def LabelState.save (store : Store) (id : String) (s : LabelState) : Store :=
  fun k => if k = id then some s else store k

/-- The cache protocol of `EmojiLabel::show` and `layout_in_ui` (`src/lib.rs`
lines 206-213 and 304-310): derive the id from the label text, load, and if
the loaded state is not yet saved, flip the flag and persist a clone.  Returns
the state the widget goes on to use and the updated store. -/
def show_cache_step (is_emoji : String → Bool)
    (graphemes : String → List String) (store : Store) (text : RichText) :
    LabelState × Store :=
  let state := LabelState.load is_emoji graphemes store text.text text
  if state.is_saved then (state, store)
  else
    (⟨state.segments, true⟩,
      LabelState.save store text.text ⟨state.segments, true⟩)

/-- A store is consistent when every entry's segment contents are those of
segmenting its key text (entries are only ever created by the
`show_cache_step` protocol, which guarantees this). -/
def StoreConsistent (is_emoji : String → Bool)
    (graphemes : String → List String) (store : Store) : Prop :=
  ∀ k s, store k = some s →
    s.segments.map TextSegment.content =
      (segment_text is_emoji graphemes (RichText.new k)).map
        TextSegment.content

theorem segment_go_content_independent (is_emoji : String → Bool)
    (input input' : RichText) (gs : List String) :
    ∀ acc, (segment_go is_emoji input gs acc).map TextSegment.content =
      (segment_go is_emoji input' gs acc).map TextSegment.content := by
  induction gs with
  | nil =>
    intro acc
    by_cases h : acc = "" <;>
      simp [segment_go, h, TextSegment.content,
        ExposedRichText.new_keep_properties]
  | cons g gs ih =>
    intro acc
    by_cases he : is_emoji g
    · by_cases h : acc = "" <;>
        simp [segment_go, he, h, TextSegment.content,
          ExposedRichText.new_keep_properties, ih ""]
    · simp [segment_go, he, ih (acc ++ g)]

theorem load_contents (is_emoji : String → Bool)
    (graphemes : String → List String) (store : Store) (input : RichText)
    (hcons : StoreConsistent is_emoji graphemes store) :
    (LabelState.load is_emoji graphemes store input.text input).segments.map
        TextSegment.content =
      (segment_text is_emoji graphemes (RichText.new input.text)).map
        TextSegment.content := by
  cases hk : store input.text with
  | some s =>
    simp only [LabelState.load, hk]
    exact hcons input.text s hk
  | none =>
    simp only [LabelState.load, hk, LabelState.from_text]
    exact segment_go_content_independent is_emoji input
      (RichText.new input.text) (graphemes input.text) ""

/-- C7: on a cache miss, `load` synchronously computes a fresh `LabelState`
via the segmenter and returns it carrying `is_saved = false`, without touching
the store; the caller's protocol then persists it with the flag set to `true`;
and under the store consistency the protocol maintains, any two `load` calls
with the same key return content-equal segment sequences. -/
theorem label_state_cache_spec (is_emoji : String → Bool)
    (graphemes : String → List String) (store : Store) (input : RichText) :
    (store input.text = none →
      LabelState.load is_emoji graphemes store input.text input =
        LabelState.from_text is_emoji graphemes input ∧
      (LabelState.load is_emoji graphemes store input.text input).is_saved =
        false ∧
      (show_cache_step is_emoji graphemes store input).2 input.text =
        some ⟨(LabelState.from_text is_emoji graphemes input).segments,
          true⟩) ∧
    (∀ store₂ input₂, StoreConsistent is_emoji graphemes store →
      StoreConsistent is_emoji graphemes store₂ → input₂.text = input.text →
      (LabelState.load is_emoji graphemes store input.text
          input).segments.map TextSegment.content =
        (LabelState.load is_emoji graphemes store₂ input₂.text
          input₂).segments.map TextSegment.content) ∧
    (StoreConsistent is_emoji graphemes store →
      StoreConsistent is_emoji graphemes
        (show_cache_step is_emoji graphemes store input).2) := by
  refine ⟨?_, ?_, ?_⟩
  · intro hmiss
    refine ⟨by simp [LabelState.load, hmiss], by simp [LabelState.load, hmiss,
      LabelState.from_text], ?_⟩
    simp [show_cache_step, LabelState.load, hmiss, LabelState.from_text,
      LabelState.save]
  · intro store₂ input₂ hcons hcons₂ hteq
    rw [load_contents is_emoji graphemes store input hcons]
    rw [load_contents is_emoji graphemes store₂ input₂ hcons₂, hteq]
  · intro hcons
    unfold show_cache_step
    by_cases hsaved :
        (LabelState.load is_emoji graphemes store input.text input).is_saved
    · simpa [hsaved] using hcons
    · simp only [hsaved, Bool.false_eq_true, if_false]
      intro k s hk
      simp only [LabelState.save] at hk
      by_cases hkeq : k = input.text
      · rw [if_pos hkeq] at hk
        have hs := (Option.some.injEq _ _).mp hk.symm
        rw [hs, hkeq]
        exact load_contents is_emoji graphemes store input hcons
      · rw [if_neg hkeq] at hk
        exact hcons k s hk

/-- Witness for C7 at a concrete miss: the fresh state is returned unsaved and
then persisted with the flag set. -/
theorem label_state_cache_spec_witness :
    LabelState.load (fun s => s == "😀") (fun _ => ["hi"]) (fun _ => none)
        "hi" (RichText.new "hi") =
      LabelState.from_text (fun s => s == "😀") (fun _ => ["hi"])
        (RichText.new "hi") ∧
    (LabelState.load (fun s => s == "😀") (fun _ => ["hi"]) (fun _ => none)
        "hi" (RichText.new "hi")).is_saved = false ∧
    (show_cache_step (fun s => s == "😀") (fun _ => ["hi"]) (fun _ => none)
        (RichText.new "hi")).2 "hi" =
      some ⟨(LabelState.from_text (fun s => s == "😀") (fun _ => ["hi"])
        (RichText.new "hi")).segments, true⟩ :=
  (label_state_cache_spec (fun s => s == "😀") (fun _ => ["hi"])
    (fun _ => none) (RichText.new "hi")).1 rfl

/- ### Simple-flow layout (`EmojiLabel::show`) and the asset store -/

/-- An egui `ImageSource::Bytes`, as built by `get_source_for_emoji`: a uri
derived from the emoji plus the asset bytes. -/
structure ImageSource where
  uri : String
  bytes : List Nat
deriving DecidableEq, Repr

/-- `get_source_for_emoji` of `src/lib.rs` (png branch; the svg branch is
identical up to the uri suffix): look the emoji up in the twemoji asset table
(`from_emoji`, an external static table entering as a parameter) and on
success build an image source from its bytes. -/
def get_source_for_emoji (from_emoji : String → Option (List Nat))
    (emoji : String) : Option ImageSource :=
  match from_emoji emoji with
  | none => none
  | some bytes => some ⟨emoji ++ ".png", bytes⟩

/-- An item the `show` loop adds to the ui: a text label, a pictogram image
box, or the transparent text label put over the image rectangle for emoji
selection and copying. -/
inductive PlacedItem where
  | label (t : RichText)
  | image (source : ImageSource)
  | selectionPlaceholder (emoji : String)
deriving DecidableEq, Repr

/-- The per-segment emission loop of `EmojiLabel::show` (`src/lib.rs` lines
221-258): a `Text` segment adds a label; an `Emoji` segment looks up its
asset, and when the lookup returns `None` the `continue` skips the whole arm —
the image box and the transparent selection label alike — while on success the
image box is added and the selection label is put over its rectangle. -/
def show_items (from_emoji : String → Option (List Nat)) :
    List TextSegment → List PlacedItem
  | [] => []
  | .Text t :: rest => .label t :: show_items from_emoji rest
  | .Emoji emoji :: rest =>
    match get_source_for_emoji from_emoji emoji with
    | none => show_items from_emoji rest
    | some source =>
        .image source :: .selectionPlaceholder emoji ::
          show_items from_emoji rest

/- ### Self-managed layout (`EmojiLabel::layout_in_ui`) -/

/-- egui `TextWrapping`, restricted to the fields `layout_in_ui`
configures. -/
structure TextWrapping where
  max_width : F32
  max_rows : Nat
  break_anywhere : Bool
deriving DecidableEq, Repr

/-- egui `TextWrapping::default()`: unbounded width, `usize::MAX` rows, break
at word boundaries. -/
def TextWrapping.default : TextWrapping where
  max_width := f32_infinity
  max_rows := 2 ^ 64 - 1
  break_anywhere := false

/-- An egui `LayoutJob`, restricted to what the claims observe: the
concatenated job text, the texts of its sections, and the wrap
configuration. -/
structure LayoutJob where
  text : String
  sections : List String
  wrap : TextWrapping
deriving DecidableEq, Repr

/-- `LayoutJob::default()`. -/
def LayoutJob.default : LayoutJob := ⟨"", [], TextWrapping.default⟩

/-- `LayoutJob::append` / `RichText::append_to`, restricted to what the claims
observe: the appended text extends the job text and adds one section. -/
def LayoutJob.append (job : LayoutJob) (s : String) : LayoutJob :=
  { job with text := job.text ++ s, sections := job.sections ++ [s] }

/-- One step of the job-building loop of `layout_in_ui` (`src/lib.rs` lines
314-328): a `Text` segment appends its content via `RichText::append_to`, an
`Emoji` segment appends its codepoint sequence via `LayoutJob::append`; no
asset lookup takes place in this loop. -/
def append_segment (job : LayoutJob) (seg : TextSegment) : LayoutJob :=
  match seg with
  | .Text t => job.append t.text
  | .Emoji emoji => job.append emoji

/-- The whole job built by `layout_in_ui` over a segment sequence. -/
def build_layout_job (segs : List TextSegment) : LayoutJob :=
  segs.foldl append_segment LayoutJob.default

/-- The wrap configuration of the non-flow branch of `layout_in_ui`
(`src/lib.rs` lines 365-373): truncation takes one row at the available width
breaking anywhere; wrapping bounds the width; otherwise the width is
unbounded. -/
def configure_wrap (truncate : Bool) (wrap : Bool) (available_width : F32)
    (job : LayoutJob) : LayoutJob :=
  if truncate then
    { job with wrap := ⟨available_width, 1, true⟩ }
  else if wrap then
    { job with wrap := { job.wrap with max_width := available_width } }
  else
    { job with wrap := { job.wrap with max_width := f32_infinity } }

/-- A laid-out galley row, modelled by the text its glyphs show. -/
structure Row where
  text : String
deriving DecidableEq, Repr

/-- An egui `Galley`, restricted to what the claims observe: the rows, the
elision flag, and `Galley::text()`, which returns the full job text. -/
structure Galley where
  rows : List Row
  elided : Bool
  text : String
deriving DecidableEq, Repr

/-- Modelled from the spec: the host text-shaping service (spec §4.4 and §6)
that turns a `LayoutJob` into a `Galley` — in the real program this is
`Fonts::layout_job` of the egui crate, an external collaborator outside this
repository.  `overflows job` says the job's content does not fit in one row of
width `job.wrap.max_width`.  The two laws are the parts of the collaborator's
contract the spec relies on: the galley's `text()` is the full job text, and a
single-row break-anywhere job whose content overflows is elided to exactly one
row cut at the last fitting position and ending in the `…` truncation
marker. -/
structure ShapingService where
  shape : LayoutJob → Galley
  overflows : LayoutJob → Bool
  text_preserved : ∀ job, (shape job).text = job.text
  truncates : ∀ job, job.wrap.max_rows = 1 → job.wrap.break_anywhere = true →
    overflows job = true →
    ∃ r, (shape job).rows = [r] ∧ (shape job).elided = true ∧
      ∃ p, r.text = p ++ "…"

/-- The on-hover disclosure of `EmojiLabel`'s `Widget::ui` implementation
(`src/lib.rs` lines 407-411): when the galley is elided, the full galley text
is shown as a hover tool-tip. -/
def hover_disclosure (galley : Galley) : Option String :=
  if galley.elided then some galley.text else none

/- ### Layout lemmas -/

theorem reconstruct_append (l₁ l₂ : List TextSegment) :
    reconstruct (l₁ ++ l₂) = reconstruct l₁ ++ reconstruct l₂ := by
  unfold reconstruct
  rw [List.map_append, joinAll_append]

theorem foldl_append_segment_text (segs : List TextSegment) :
    ∀ job, (segs.foldl append_segment job).text = job.text ++ reconstruct segs := by
  induction segs with
  | nil =>
    intro job
    simp [reconstruct, joinAll, String.append_empty]
  | cons seg rest ih =>
    intro job
    cases seg <;>
      simp [append_segment, LayoutJob.append, ih, reconstruct, joinAll,
        TextSegment.content, String.append_assoc]

theorem build_layout_job_text (segs : List TextSegment) :
    (build_layout_job segs).text = reconstruct segs := by
  rw [build_layout_job, foldl_append_segment_text]
  exact String.empty_append _

/- ### Claim theorems: layout -/

/-- Counterexample to C6 as stated: with an asset store holding no asset for
`"😀"`, the `show` loop emits nothing at all for the pictogram segment — the
`continue` skips the transparent selection label together with the image box,
so the segment is not present for selection and copy purposes. -/
theorem show_missing_asset_counterexample :
    show_items (fun _ => none) [TextSegment.Emoji "😀"] = [] ∧
    PlacedItem.selectionPlaceholder "😀" ∉
      show_items (fun _ => none) [TextSegment.Emoji "😀"] := by
  constructor
  · rfl
  · intro h
    simp [show_items, get_source_for_emoji] at h

/-- C6 amended: in the simple-flow pass (`show`), a `Pictogram` segment whose
asset lookup returns no asset is skipped silently — it contributes no placed
item (neither image box nor transparent selection label, so it is not present
for selection/copy in that pass) and the loop still emits every other segment
unchanged; in the self-managed pass (`layout_in_ui`) no asset lookup occurs
and the segment's codepoint sequence is always part of the shaping job. -/
theorem show_missing_asset_skipped (from_emoji : String → Option (List Nat))
    (emoji : String) (pre post : List TextSegment)
    (h : from_emoji emoji = none) :
    show_items from_emoji (pre ++ TextSegment.Emoji emoji :: post) =
      show_items from_emoji (pre ++ post) ∧
    PlacedItem.selectionPlaceholder emoji ∉
      show_items from_emoji [TextSegment.Emoji emoji] ∧
    (build_layout_job (pre ++ TextSegment.Emoji emoji :: post)).text =
      reconstruct pre ++ (emoji ++ reconstruct post) := by
  refine ⟨?_, ?_, ?_⟩
  · induction pre with
    | nil => simp [show_items, get_source_for_emoji, h]
    | cons seg rest ih =>
      cases seg with
      | Text t => simpa [show_items] using ih
      | Emoji e =>
        cases hsrc : get_source_for_emoji from_emoji e <;>
          simp [show_items, hsrc, ih]
  · intro hmem
    simp [show_items, get_source_for_emoji, h] at hmem
  · rw [build_layout_job_text, reconstruct_append]
    simp [reconstruct, joinAll, TextSegment.content]

/-- Witness for C6's amended theorem at a concrete input. -/
theorem show_missing_asset_skipped_witness :
    show_items (fun _ => none)
        ([TextSegment.Text (RichText.new "a")] ++ TextSegment.Emoji "😀" ::
          [TextSegment.Text (RichText.new "b")]) =
      show_items (fun _ => none)
        ([TextSegment.Text (RichText.new "a")] ++
          [TextSegment.Text (RichText.new "b")]) ∧
    PlacedItem.selectionPlaceholder "😀" ∉
      show_items (fun _ => none) [TextSegment.Emoji "😀"] ∧
    (build_layout_job
        ([TextSegment.Text (RichText.new "a")] ++ TextSegment.Emoji "😀" ::
          [TextSegment.Text (RichText.new "b")])).text =
      reconstruct [TextSegment.Text (RichText.new "a")] ++
        ("😀" ++ reconstruct [TextSegment.Text (RichText.new "b")]) :=
  show_missing_asset_skipped (fun _ => none) "😀"
    [TextSegment.Text (RichText.new "a")]
    [TextSegment.Text (RichText.new "b")] rfl

/-- C9: when truncation is requested and the content exceeds the available
width, the self-managed layout path configures the single shaping job over all
segments with a one-row break-anywhere wrap at the available width, so the
shaping service produces exactly one row, cut at the last fitting position
and ending in the truncation marker, and marks the galley elided; the full
untruncated text — the lossless reconstruction of the segment sequence — then
remains available and is shown as the on-hover disclosure. -/
theorem truncate_layout_spec (svc : ShapingService) (segs : List TextSegment)
    (available_width : F32)
    (hov : svc.overflows (configure_wrap true false available_width
        (build_layout_job segs)) = true) :
    (svc.shape (configure_wrap true false available_width
        (build_layout_job segs))).rows.length = 1 ∧
    (∃ r p, (svc.shape (configure_wrap true false available_width
        (build_layout_job segs))).rows = [r] ∧ r.text = p ++ "…") ∧
    hover_disclosure (svc.shape (configure_wrap true false available_width
        (build_layout_job segs))) = some (reconstruct segs) := by
  obtain ⟨r, hrows, helided, p, hp⟩ :=
    svc.truncates (configure_wrap true false available_width
      (build_layout_job segs)) rfl rfl hov
  refine ⟨by rw [hrows]; rfl, ⟨r, p, hrows, hp⟩, ?_⟩
  rw [hover_disclosure, helided, if_pos rfl, svc.text_preserved]
  rw [show (configure_wrap true false available_width
      (build_layout_job segs)).text = (build_layout_job segs).text from rfl]
  rw [build_layout_job_text]

/-- A concrete shaping service satisfying the modelled contract, used only to
witness the truncation theorem. -/
def trivialShaper : ShapingService where
  shape := fun job => ⟨[⟨"…"⟩], true, job.text⟩
  overflows := fun _ => true
  text_preserved := fun _ => rfl
  truncates := fun _ _ _ _ =>
    ⟨⟨"…"⟩, rfl, rfl, "", (String.empty_append "…").symm⟩

/-- Witness for C9 at a concrete input. -/
theorem truncate_layout_spec_witness :
    (trivialShaper.shape (configure_wrap true false f32_zero
        (build_layout_job [TextSegment.Emoji "😀"]))).rows.length = 1 ∧
    (∃ r p, (trivialShaper.shape (configure_wrap true false f32_zero
        (build_layout_job [TextSegment.Emoji "😀"]))).rows = [r] ∧
      r.text = p ++ "…") ∧
    hover_disclosure (trivialShaper.shape (configure_wrap true false f32_zero
        (build_layout_job [TextSegment.Emoji "😀"]))) =
      some (reconstruct [TextSegment.Emoji "😀"]) :=
  truncate_layout_spec trivialShaper [TextSegment.Emoji "😀"] f32_zero rfl
